import Mathlib

/-!
# The `tauri` launcher script (`scripts/tauri.js`)

The script is eighteen lines of JavaScript:

    const args = process.argv.slice(2);
    const child = spawn("tauri", args, {
      stdio: "inherit",
      shell: true,
      env: { ...process.env,
             APPIMAGE_EXTRACT_AND_RUN: process.env.APPIMAGE_EXTRACT_AND_RUN ?? "1" }
    });
    child.on("exit", (code) => { process.exit(code ?? 0); });

The embedding below keeps the process state explicit: the argument vector and
the environment are parameters, the call to `spawn` is a value (the launch
request), and the exit listener returns the status it hands to `process.exit`.

JavaScript values are embedded as follows.  A string is a `String`; an array of
strings is a `List String`; a value that is either a number or `null`, or either
a string or `undefined`, is an `Option`; an object with string-valued properties
is the list of its properties in insertion order.  The environment of the
process is the list of its `name=value` entries, and `process.env` is the
object the runtime lays over that list.
-/

namespace TauriLauncher

/-! ## JavaScript operators used by the script -/

/-- Nullish coalescing `a ?? d`: the right operand is taken only when the left
one is `null` or `undefined` (here `none`).  A left operand such as `0` or the
empty string is kept. -/
def nullish {α : Type} (a : Option α) (d : α) : α :=
  match a with
  | some v => v
  | none => d

/-- One-argument form `xs.slice(start)` of `Array.prototype.slice`: a negative
`start` counts from the end and is clamped at `0`, a non-negative one is
clamped at the length, and the elements from that index to the end are
copied. -/
def slice {α : Type} (xs : List α) (start : Int) : List α :=
  let len : Int := xs.length
  let k : Int := if start < 0 then max (len + start) 0 else min start len
  xs.drop k.toNat

/-! ## The script -/

/-- Line 5, `const args = process.argv.slice(2)`. -/
def args (argv : List String) : List String :=
  slice argv 2

/-- Lines 16 to 18, the body of the `"exit"` listener: the value is the status
passed to `process.exit`.  `code` is the first argument of the event, a number
when the child exited on its own and `null` when a signal ended it. -/
def exitHandler (code : Option Int) : Int :=
  nullish code 0

/-! ## Objects with string properties -/

/-- An object whose property values are strings: its properties in insertion
order.  The environment of the process, a list of `name=value` entries, has
the same shape. -/
abbrev Obj := List (String × String)

/-- Property read `o[k]`: the value of the property named `k`, `undefined`
(`none`) when there is none. -/
def getProperty (o : Obj) (k : String) : Option String :=
  match o with
  | [] => none
  | (k', v') :: rest => if k' = k then some v' else getProperty rest k

/-- Creating the data property `k` with value `v`: an existing property keeps
its place and takes the new value, a new one is added at the end. -/
def defineProperty (o : Obj) (k v : String) : Obj :=
  match o with
  | [] => [(k, v)]
  | (k', v') :: rest =>
    if k' = k then (k', v) :: rest else (k', v') :: defineProperty rest k v

/-- The own property keys of an object, in order. -/
def ownKeys (o : Obj) : List String :=
  o.map Prod.fst

/-- Array index names: the decimal numerals, without a sign and without leading
zeros, of the integers from 0 to 2^32 - 2.  A property with such a name is an
indexed property of its object, any other string names a named property. -/
def isArrayIndex (k : String) : Bool :=
  match k.data with
  | [] => false
  | c :: cs =>
    (c :: cs).all Char.isDigit && (c != '0' || cs.isEmpty) &&
      decide ((c :: cs).foldl (fun n d => 10 * n + (d.toNat - 48)) 0 ≤ 4294967294)

/-- Property read `process.env[k]` over the environment `environ`.  The runtime
serves the named properties of `process.env` from the environment and has no
handler for indexed ones, so a name that is an array index reads as
`undefined` even when the environment holds a variable of that name. -/
def envGet (environ : Obj) (k : String) : Option String :=
  if isArrayIndex k then none else getProperty environ k

/-- Spread `...source` inside an object literal (CopyDataProperties), for a
source that lists the names `keys` and reads as `get`: for each listed key in
order, a key that has a property is defined on the object under construction
with the value read, and a listed key without a property is passed over. -/
def copyDataProperties (target : Obj) (keys : List String)
    (get : String → Option String) : Obj :=
  keys.foldl
    (fun t k =>
      match get k with
      | some v => defineProperty t k v
      | none => t)
    target

/-- Name of the variable the script gives a default to. -/
def extractAndRun : String := "APPIMAGE_EXTRACT_AND_RUN"

/-- Lines 10 to 13, the object literal
`{ ...process.env, APPIMAGE_EXTRACT_AND_RUN: process.env.APPIMAGE_EXTRACT_AND_RUN ?? "1" }`,
for a process whose environment is `env`: a fresh object receives the
properties of `process.env`, which lists every variable name of the
environment, then the property `APPIMAGE_EXTRACT_AND_RUN` is defined with the
coalesced value. -/
def childEnv (env : Obj) : Obj :=
  defineProperty (copyDataProperties [] (ownKeys env) (envGet env)) extractAndRun
    (nullish (envGet env extractAndRun) "1")

/-- The three arguments of a call `spawn(command, args, options)`, with the
options the script sets. -/
structure SpawnRequest where
  command : String
  args : List String
  stdio : String
  shell : Bool
  env : Obj
  deriving DecidableEq, Repr

/-- Lines 5 to 14: the call to `spawn` the script makes when started with
argument vector `argv` and environment `env`. -/
def launch (argv : List String) (env : Obj) : SpawnRequest :=
  SpawnRequest.mk "tauri" (args argv) "inherit" true (childEnv env)

/-! ## What a shell-resolved spawn runs

With `shell: true` the runtime does not start `tauri` itself.  It starts
`/bin/sh -c <line>`, and the shell reads `<line>` to find the command name and
its arguments.  Neither the runtime library nor the shell is part of the
repository; the two steps are modelled here for the POSIX shell. -/

/-- Modelled from the spec: the joining step of a shell-resolved spawn, which
belongs to the runtime library and not to the repository ("the command and
arguments are joined into one shell command line").  The command and the
arguments are joined with single spaces, as `[command, ...args].join(" ")`. -/
def shellCommandLine (r : SpawnRequest) : String :=
  " ".intercalate (r.command :: r.args)

/-- A blank separates words on a shell command line: space or tab. -/
def isBlank (c : Char) : Bool :=
  c = ' ' || c = Char.ofNat 9

/-- Code points of the ASCII characters that are special to the shell at some
place of a word: `"` `#` `$` `&` `'` `(` `)` `*` `;` `<` `>` `?` `[`,
backslash, backtick, `{` `|` `}` and `~`. -/
def shSpecialCodes : List Nat :=
  [34, 35, 36, 38, 39, 40, 41, 42, 59, 60, 62, 63, 91, 92, 96, 123, 124, 125, 126]

/-- Characters the shell takes literally wherever they stand in an argument:
every character that is not a blank, not a control character and not special
to the shell.  Letters, digits, `- _ . / : = , + @ % ^ ! ]` and the characters
outside ASCII are literal. -/
def isLiteral (c : Char) : Bool :=
  decide (32 < c.toNat) && decide (c.toNat ≠ 127) && decide (c.toNat ∉ shSpecialCodes)

/-- Modelled from the spec: the splitting step of the shell, which is not part
of the repository ("one shell command line that the shell then splits").  Only
the unquoted fragment is modelled: blanks end a word, literal characters
extend the current word `cur`, and any other character (quotes, backslash,
`$`, globbing and control operators, newline and other control characters)
yields `none`, meaning that the line lies outside the fragment. -/
def shWords (cs : List Char) (cur : List Char) : Option (List (List Char)) :=
  match cs with
  | [] => some (if cur.isEmpty then [] else [cur])
  | c :: rest =>
    if isBlank c then
      (shWords rest []).map (fun ws => if cur.isEmpty then ws else cur :: ws)
    else if isLiteral c then shWords rest (cur ++ [c])
    else none

/-- The words the shell splits a command line into. -/
def shSplit (line : String) : Option (List String) :=
  (shWords line.data []).map (fun ws => ws.map String.mk)

/-- The argument vector the external program is started with: the command name
followed by its arguments.  A shell-resolved request goes through the command
line; a direct one passes the arguments as they are. -/
def execArgv (r : SpawnRequest) : Option (List String) :=
  if r.shell then shSplit (shellCommandLine r) else some (r.command :: r.args)

/-- A non-empty string of literal characters. -/
def isLiteralWord (w : String) : Bool :=
  !w.data.isEmpty && w.data.all isLiteral

/-! ## Events of the child process -/

/-- The two events of a child process that end the launcher's wait: `"exit"`,
carrying the exit code (`null` when a signal ended the child), and `"error"`,
emitted when the process could not be spawned. -/
inductive ChildEvent where
  | exit (code : Option Int)
  | error
  deriving DecidableEq, Repr

/-- Line 16, `child.on("exit", ...)`: the events the script registers a
listener for.  There is no other registration and no `try` around `spawn`. -/
def listenedEvents : List String := ["exit"]

/-- Modelled from the spec: the event dispatch of the runtime, which is not
part of the repository ("the failure surfaces through whatever mechanism the
spawning call uses (e.g., an error event/exception)", "an uncaught failure
terminating the parent with a non-zero status").  An `"exit"` event runs the
registered listener, whose result is the parent's status.  An `"error"` event
that has no listener is thrown and, uncaught, ends the parent with status 1.
`none` means the event does not end the parent. -/
def parentStatus (ev : ChildEvent) : Option Int :=
  match ev with
  | ChildEvent.exit code =>
    if "exit" ∈ listenedEvents then some (exitHandler code) else none
  | ChildEvent.error =>
    if "error" ∈ listenedEvents then none else some 1

/-! ## Running the command line

The status of the child is the status of the whole command line, which the
shell runs command by command.  The fragment modelled has simple commands made
of literal words, joined by the control operators `||`, `&&` and `;` standing
as words of their own. -/

/-- What stands under a command name on the machine: nothing that can be
started, with the status the shell reports for it (127 for a command that is
not found; 126, in some shells 127, for one that is found and cannot be
executed), or a program, with its exit status as a function of its
arguments. -/
inductive Lookup where
  | fails (status : Int)
  | runs (status : List String → Int)

/-- Whether nothing can be started under the name. -/
def Lookup.isFailure (l : Lookup) : Bool :=
  match l with
  | Lookup.fails _ => true
  | Lookup.runs _ => false

/-- The machine the launcher runs on: whether `/bin/sh` can be started, and
what stands under each command name. -/
structure Platform where
  shellStarts : Bool
  sys : String → Lookup

/-- A blank-separated piece of a command line. -/
inductive ShToken where
  | word (w : String)
  | orIf
  | andIf
  | semi

/-- The blank-separated pieces of a command line, whatever their characters;
`cur` is the piece being read. -/
def splitBlanks (cs : List Char) (cur : List Char) : List (List Char) :=
  match cs with
  | [] => if cur.isEmpty then [] else [cur]
  | c :: rest =>
    if isBlank c then
      (if cur.isEmpty then splitBlanks rest [] else cur :: splitBlanks rest [])
    else splitBlanks rest (cur ++ [c])

/-- Modelled from the spec: how the shell, which is not part of the repository,
reads one piece of the line ("shell-interpretation semantics apply").  `||`,
`&&` and `;` are control operators, a non-empty piece of literal characters is
a word, and any other piece lies outside the fragment. -/
def shToken (raw : List Char) : Option ShToken :=
  if raw = ['|', '|'] then some ShToken.orIf
  else if raw = ['&', '&'] then some ShToken.andIf
  else if raw = [';'] then some ShToken.semi
  else if !raw.isEmpty && raw.all isLiteral then some (ShToken.word (String.mk raw))
  else none

/-- Status of a simple command: the status of the program found under its
name, or the status the shell reports when nothing can be started.  An empty
command is a syntax error and lies outside the fragment. -/
def runSimple (sys : String → Lookup) (cmd : List String) : Option Int :=
  match cmd with
  | [] => none
  | name :: rest =>
    match sys name with
    | Lookup.fails s => some s
    | Lookup.runs f => some (f rest)

/-- Status after the command `cur`, which is run when `run` holds and skipped,
leaving the status `last`, when it does not. -/
def shStep (sys : String → Lookup) (last : Int) (run : Bool) (cur : List String) :
    Option Int :=
  if run then runSimple sys cur else (if cur.isEmpty then none else some last)

/-- Modelled from the spec: how the shell, which is not part of the repository,
runs the pieces of a command line from left to right.  Words extend the
current command `cur`.  At a control operator the current command is run or
skipped, and the next command is run after `||` when the status is not 0,
after `&&` when it is 0, and after `;` always.  The result is the status of
the last command run, which is the exit status of the shell. -/
def shRun (sys : String → Lookup) (raws : List (List Char)) (last : Int) (run : Bool)
    (cur : List String) : Option Int :=
  match raws with
  | [] => shStep sys last run cur
  | raw :: rest =>
    match shToken raw with
    | none => none
    | some (ShToken.word w) => shRun sys rest last run (cur ++ [w])
    | some ShToken.orIf =>
      (shStep sys last run cur).bind (fun st => shRun sys rest st (decide (st ≠ 0)) [])
    | some ShToken.andIf =>
      (shStep sys last run cur).bind (fun st => shRun sys rest st (decide (st = 0)) [])
    | some ShToken.semi =>
      (shStep sys last run cur).bind (fun st => shRun sys rest st true [])

/-- Exit status of `/bin/sh -c line`. -/
def shStatus (sys : String → Lookup) (line : String) : Option Int :=
  shRun sys (splitBlanks line.data []) 0 true []

/-- Modelled from the spec: the event the runtime, which is not part of the
repository, reports for a launch request ("if the external executable cannot
be found or fails to start, the failure surfaces through whatever mechanism
the spawning call uses").  A shell-resolved request starts the shell: when the
shell cannot be started the event is `"error"`, otherwise it is `"exit"` with
the status of the command line.  A direct request starts the command itself:
`"error"` when it cannot be started, `"exit"` with its status otherwise. -/
def childEvent (p : Platform) (r : SpawnRequest) : Option ChildEvent :=
  if r.shell then
    (if p.shellStarts then
      (shStatus p.sys (shellCommandLine r)).map (fun st => ChildEvent.exit (some st))
    else some ChildEvent.error)
  else
    match p.sys r.command with
    | Lookup.fails _ => some ChildEvent.error
    | Lookup.runs f => some (ChildEvent.exit (some (f r.args)))

/-- The status the parent ends with when the script is started with argument
vector `argv` and environment `env` on the machine `p`; `none` when the
command line lies outside the modelled fragment. -/
def launcherStatus (p : Platform) (argv : List String) (env : Obj) : Option Int :=
  (childEvent p (launch argv env)).bind parentStatus

/-! ## Exit status propagation -/

/-- C1: for every numeric child exit code `n`, zero or not, the exit handler
ends the parent with exactly `n`; a child that exits with 2 makes the parent
exit with 2. -/
theorem exitHandler_numeric :
    (∀ n : Int, exitHandler (some n) = n) ∧ exitHandler (some 0) = 0 ∧
      exitHandler (some 2) = 2 :=
  ⟨fun _ => rfl, rfl, rfl⟩

/-- C2: when the exit code is absent (the child was ended by a signal), the
exit handler ends the parent with status 0. -/
theorem exitHandler_absent : exitHandler none = 0 := rfl

/-- C10: the parent status is 0 exactly when the child code is 0 or absent, so
a signalled child is reported like a successful one, and a non-zero child code
gives a non-zero parent status. -/
theorem exitHandler_zero_iff :
    (∀ code : Option Int, exitHandler code = 0 ↔ (code = some 0 ∨ code = none)) ∧
      exitHandler none = exitHandler (some 0) ∧
      (∀ n : Int, n ≠ 0 → exitHandler (some n) ≠ 0) := by
  refine ⟨?_, rfl, fun n hn => hn⟩
  intro code
  cases code with
  | none => simp [exitHandler, nullish]
  | some n => simp [exitHandler, nullish]

/-! ## Argument forwarding -/

theorem slice_two {α : Type} (xs : List α) : slice xs 2 = xs.drop 2 := by
  unfold slice
  simp only [show ¬ ((2 : Int) < 0) by decide, if_false]
  rcases xs with _ | ⟨a, _ | ⟨b, t⟩⟩
  · rfl
  · rfl
  · have h : min (2 : Int) ((a :: b :: t).length : Int) = 2 := by
      simp only [List.length_cons]
      omega
    rw [h]
    rfl

/-- C5: the argument list handed to `spawn` is `argv` without its first two
entries: entry `i` of the list is entry `i + 2` of `argv` for every `i`, so the
same strings appear in the same order with none added, dropped or altered, and
the list is empty when `argv` has at most two entries. -/
theorem args_forwarded (argv : List String) :
    args argv = argv.drop 2 ∧
      (∀ i : Nat, (args argv)[i]? = argv[i + 2]?) ∧
      (args argv).length = argv.length - 2 ∧
      (∀ pre : List String, pre.length = 2 → ∀ rest : List String,
        args (pre ++ rest) = rest) ∧
      (argv.length ≤ 2 → args argv = []) := by
  have h : args argv = argv.drop 2 := slice_two argv
  refine ⟨h, ?_, ?_, ?_, ?_⟩
  · intro i
    rw [h, List.getElem?_drop, Nat.add_comm]
  · rw [h, List.length_drop]
  · intro pre hpre rest
    show slice (pre ++ rest) 2 = rest
    rw [slice_two, ← hpre, List.drop_left]
  · intro hle
    rw [h]
    exact List.drop_eq_nil_of_le hle

/-! ## The child environment -/

theorem getProperty_defineProperty (o : Obj) (k v k' : String) :
    getProperty (defineProperty o k v) k' =
      if k = k' then some v else getProperty o k' := by
  induction o with
  | nil => simp [defineProperty, getProperty]
  | cons p rest ih =>
    obtain ⟨a, b⟩ := p
    by_cases hak : a = k
    · by_cases hkk : k = k'
      · simp [defineProperty, getProperty, hak, hkk]
      · simp [defineProperty, getProperty, hak, hkk]
    · by_cases hak' : a = k'
      · have hkk : k ≠ k' := fun h => hak (hak'.trans h.symm)
        subst hak'
        simp [defineProperty, getProperty, hak, hkk]
      · simp [defineProperty, getProperty, hak, hak', ih]

theorem getProperty_of_not_mem (o : Obj) (k : String) (h : k ∉ ownKeys o) :
    getProperty o k = none := by
  induction o with
  | nil => rfl
  | cons p rest ih =>
    obtain ⟨a, b⟩ := p
    simp only [ownKeys, List.map_cons, List.mem_cons, not_or] at h
    have hak : a ≠ k := fun e => h.1 e.symm
    simp only [getProperty, hak, if_false]
    exact ih h.2

theorem getProperty_foldl (get : String → Option String) (k : String)
    (ks : List String) :
    ∀ t : Obj,
      getProperty
          (ks.foldl
            (fun t k =>
              match get k with
              | some v => defineProperty t k v
              | none => t)
            t) k =
        if k ∈ ks then (get k).orElse (fun _ => getProperty t k)
        else getProperty t k := by
  induction ks with
  | nil => intro t; simp
  | cons a ks ih =>
    intro t
    rw [List.foldl_cons, ih]
    by_cases hak : a = k
    · subst hak
      cases hs : get a with
      | none => simp [hs]
      | some v => simp [hs, getProperty_defineProperty]
    · have hka : ¬ k = a := fun e => hak e.symm
      cases hs : get a with
      | none => simp [hs, hka]
      | some v => simp [hs, hka, hak, getProperty_defineProperty]

theorem getProperty_copyDataProperties (env : Obj) (k : String) :
    getProperty (copyDataProperties [] (ownKeys env) (envGet env)) k = envGet env k := by
  unfold copyDataProperties
  rw [getProperty_foldl]
  by_cases hk : k ∈ ownKeys env
  · rw [if_pos hk]
    cases envGet env k <;> rfl
  · rw [if_neg hk]
    unfold envGet
    rw [getProperty_of_not_mem env k hk]
    cases isArrayIndex k <;> rfl

theorem envGet_extractAndRun (env : Obj) :
    envGet env "APPIMAGE_EXTRACT_AND_RUN" = getProperty env "APPIMAGE_EXTRACT_AND_RUN" := by
  unfold envGet
  rw [if_neg (by decide)]

theorem getProperty_childEnv_self (env : Obj) :
    getProperty (childEnv env) "APPIMAGE_EXTRACT_AND_RUN" =
      some (nullish (getProperty env "APPIMAGE_EXTRACT_AND_RUN") "1") := by
  unfold childEnv extractAndRun
  rw [getProperty_defineProperty, if_pos rfl, envGet_extractAndRun]

/-- C3: when `APPIMAGE_EXTRACT_AND_RUN` is unset in the parent environment,
the environment passed to the spawned child maps it to the string `"1"`. -/
theorem childEnv_default (argv : List String) (env : Obj)
    (h : getProperty env "APPIMAGE_EXTRACT_AND_RUN" = none) :
    getProperty (launch argv env).env "APPIMAGE_EXTRACT_AND_RUN" = some "1" := by
  show getProperty (childEnv env) "APPIMAGE_EXTRACT_AND_RUN" = some "1"
  rw [getProperty_childEnv_self, h]
  rfl

theorem childEnv_default_witness :
    getProperty [("PATH", "/usr/bin"), ("HOME", "/root")] "APPIMAGE_EXTRACT_AND_RUN" = none ∧
      getProperty (launch ["node", "tauri.js", "dev"]
        [("PATH", "/usr/bin"), ("HOME", "/root")]).env "APPIMAGE_EXTRACT_AND_RUN" = some "1" :=
  ⟨by decide, childEnv_default _ _ (by decide)⟩

/-- C4: when `APPIMAGE_EXTRACT_AND_RUN` is set to a string `v` in the parent
environment, the empty string included, the environment passed to the spawned
child maps it to exactly `v`; the default `"1"` is not applied. -/
theorem childEnv_preserved (argv : List String) (env : Obj) (v : String)
    (h : getProperty env "APPIMAGE_EXTRACT_AND_RUN" = some v) :
    getProperty (launch argv env).env "APPIMAGE_EXTRACT_AND_RUN" = some v := by
  show getProperty (childEnv env) "APPIMAGE_EXTRACT_AND_RUN" = some v
  rw [getProperty_childEnv_self, h]
  rfl

theorem childEnv_preserved_witness :
    getProperty [("PATH", "/usr/bin"), ("APPIMAGE_EXTRACT_AND_RUN", "")]
        "APPIMAGE_EXTRACT_AND_RUN" = some "" ∧
      getProperty (launch ["node", "tauri.js", "dev"]
        [("PATH", "/usr/bin"), ("APPIMAGE_EXTRACT_AND_RUN", "")]).env
        "APPIMAGE_EXTRACT_AND_RUN" = some "" :=
  ⟨by decide, childEnv_preserved _ _ "" (by decide)⟩

/-- C7, as stated, fails: a parent variable named `1` is set in the parent
environment and absent from the environment passed to the child. -/
theorem childEnv_drops_index_name :
    "1" ≠ "APPIMAGE_EXTRACT_AND_RUN" ∧
      getProperty [("PATH", "/usr/bin"), ("1", "x")] "1" = some "x" ∧
      getProperty (launch ["node", "tauri.js", "dev"]
        [("PATH", "/usr/bin"), ("1", "x")]).env "1" = none := by
  decide

/-- C7, amended: for every variable name `k` other than
`APPIMAGE_EXTRACT_AND_RUN`, the environment passed to the child has `k` set
exactly when the parent has it set, and to the same value, unless `k` is an
array index name; a variable with an array index name is not passed on. -/
theorem childEnv_frame (argv : List String) (env : Obj) (k : String)
    (hk : k ≠ "APPIMAGE_EXTRACT_AND_RUN") :
    getProperty (launch argv env).env k =
      if isArrayIndex k then none else getProperty env k := by
  show getProperty (childEnv env) k = _
  unfold childEnv extractAndRun
  rw [getProperty_defineProperty, if_neg (fun e => hk e.symm),
    getProperty_copyDataProperties]
  rfl

theorem childEnv_frame_witness :
    "PATH" ≠ "APPIMAGE_EXTRACT_AND_RUN" ∧ isArrayIndex "PATH" = false ∧
      getProperty (launch ["node", "tauri.js", "dev"]
        [("PATH", "/usr/bin"), ("APPIMAGE_EXTRACT_AND_RUN", "0")]).env "PATH" =
      (if isArrayIndex "PATH" then none
        else getProperty [("PATH", "/usr/bin"), ("APPIMAGE_EXTRACT_AND_RUN", "0")] "PATH") :=
  ⟨by decide, by decide, childEnv_frame _ _ "PATH" (by decide)⟩

/-! ## The argument vector the external program receives -/

theorem intercalate_go_data (sep : String) (l : List String) :
    ∀ acc : String,
      (String.intercalate.go acc sep l).data =
        acc.data ++ (l.map (fun x => sep.data ++ x.data)).flatten := by
  induction l with
  | nil => intro acc; simp [String.intercalate.go]
  | cons a l ih =>
    intro acc
    simp [String.intercalate.go, ih, List.append_assoc]

theorem shellCommandLine_data (r : SpawnRequest) :
    (shellCommandLine r).data =
      r.command.data ++ (r.args.map (fun x => ' ' :: x.data)).flatten := by
  unfold shellCommandLine
  show (String.intercalate.go r.command " " r.args).data = _
  rw [intercalate_go_data]
  rfl

theorem isBlank_of_isLiteral (c : Char) (h : isLiteral c = true) : isBlank c = false := by
  cases hb : isBlank c with
  | false => rfl
  | true =>
    exfalso
    simp only [isBlank, Bool.or_eq_true, decide_eq_true_eq] at hb
    rcases hb with hb | hb
    · subst hb; revert h; decide
    · subst hb; revert h; decide

theorem shWords_literal (w : List Char) (hw : ∀ c ∈ w, isLiteral c = true) :
    ∀ (rest cur : List Char), shWords (w ++ rest) cur = shWords rest (cur ++ w) := by
  induction w with
  | nil => intro rest cur; simp
  | cons c w ih =>
    intro rest cur
    have hc : isLiteral c = true := hw c (List.mem_cons_self c w)
    have hw' : ∀ d ∈ w, isLiteral d = true := fun d hd => hw d (List.mem_cons_of_mem c hd)
    rw [List.cons_append, shWords]
    simp only [isBlank_of_isLiteral c hc, hc, if_true, Bool.false_eq_true, if_false]
    rw [ih hw', List.append_assoc]
    rfl

theorem shWords_arguments (l : List String) (hl : ∀ a ∈ l, isLiteralWord a = true) :
    ∀ cur : List Char, cur ≠ [] →
      shWords ((l.map (fun x => ' ' :: x.data)).flatten) cur =
        some (cur :: l.map String.data) := by
  induction l with
  | nil =>
    intro cur hcur
    cases cur with
    | nil => exact absurd rfl hcur
    | cons c cs => simp [shWords]
  | cons a l ih =>
    intro cur hcur
    have ha : isLiteralWord a = true := hl a (List.mem_cons_self a l)
    have hl' : ∀ b ∈ l, isLiteralWord b = true := fun b hb => hl b (List.mem_cons_of_mem a hb)
    simp only [isLiteralWord, Bool.and_eq_true, Bool.not_eq_true', List.isEmpty_eq_false,
      List.all_eq_true] at ha
    have hne : cur.isEmpty = false := by
      cases cur with
      | nil => exact absurd rfl hcur
      | cons c cs => rfl
    rw [List.map_cons, List.flatten_cons, List.cons_append, shWords]
    simp only [show isBlank ' ' = true by decide, if_true]
    rw [shWords_literal a.data ha.2, List.nil_append, ih hl' a.data ha.1]
    simp [hne]

theorem shWords_commandLine (r : SpawnRequest)
    (hc : isLiteralWord r.command = true) (ha : ∀ a ∈ r.args, isLiteralWord a = true) :
    shWords (shellCommandLine r).data [] = some ((r.command :: r.args).map String.data) := by
  simp only [isLiteralWord, Bool.and_eq_true, Bool.not_eq_true', List.isEmpty_eq_false,
    List.all_eq_true] at hc
  rw [shellCommandLine_data]
  have h := shWords_literal r.command.data hc.2
    ((r.args.map (fun x => ' ' :: x.data)).flatten) []
  rw [h, List.nil_append, shWords_arguments r.args ha r.command.data hc.1]
  rfl

theorem execArgv_of_literal (r : SpawnRequest) (hs : r.shell = true)
    (hc : isLiteralWord r.command = true) (ha : ∀ a ∈ r.args, isLiteralWord a = true) :
    execArgv r = some (r.command :: r.args) := by
  unfold execArgv shSplit
  rw [if_pos hs, shWords_commandLine r hc ha]
  have hid : (String.mk ∘ String.data) = id := funext (fun _ => rfl)
  simp [hid]

theorem launch_args (node script : String) (A : List String) (env : Obj) :
    (launch (node :: script :: A) env).args = A := by
  show slice (node :: script :: A) 2 = A
  rw [slice_two]
  rfl

/-- C6, as stated, fails: an argument that contains a space reaches `tauri` as
two arguments, and an empty argument does not reach it at all. -/
theorem execArgv_not_identity :
    execArgv (launch ["node", "tauri.js", "hello world"] []) =
        some ["tauri", "hello", "world"] ∧
      execArgv (launch ["node", "tauri.js", "hello world"] []) ≠
        some ["tauri", "hello world"] ∧
      execArgv (launch ["node", "tauri.js", "", "dev"] []) = some ["tauri", "dev"] ∧
      execArgv (launch ["node", "tauri.js", "", "dev"] []) ≠ some ["tauri", "", "dev"] := by
  decide

/-- C6, amended: for every argument sequence `A` whose strings are non-empty
and made only of characters the shell takes literally (no blank, no control
character and no character special to the shell), the shell-resolved launch
starts `tauri` with exactly `A` as its arguments, after the command name. -/
theorem execArgv_launch_literal (node script : String) (A : List String) (env : Obj)
    (hA : ∀ a ∈ A, isLiteralWord a = true) :
    execArgv (launch (node :: script :: A) env) = some ("tauri" :: A) := by
  have hc : isLiteralWord (launch (node :: script :: A) env).command = true := by
    show isLiteralWord "tauri" = true
    decide
  have h := execArgv_of_literal (launch (node :: script :: A) env) rfl hc
    (by rw [launch_args]; exact hA)
  rw [h, launch_args]
  rfl

theorem execArgv_launch_literal_witness :
    (∀ a ∈ ["build", "--config=café.json", "a^b"], isLiteralWord a = true) ∧
      execArgv (launch ("/usr/bin/node" :: "scripts/tauri.js" ::
        ["build", "--config=café.json", "a^b"]) [("HOME", "/root")]) =
        some ("tauri" :: ["build", "--config=café.json", "a^b"]) :=
  ⟨by decide, execArgv_launch_literal _ _ _ _ (by decide)⟩

/-! ## The launch request -/

/-- C8: with the forwarded arguments `build`, `--target`, `x86_64` and a parent
environment that does not set `APPIMAGE_EXTRACT_AND_RUN`, the launch request is
the command `tauri` with these three arguments in order, shell-resolved, with
inherited standard streams and with `APPIMAGE_EXTRACT_AND_RUN` set to `1` in
the child environment; its shell command line is `tauri build --target x86_64`
and the shell starts `tauri` with the three arguments. -/
theorem launch_build_example (node script : String) (env : Obj)
    (h : getProperty env "APPIMAGE_EXTRACT_AND_RUN" = none) :
    (launch [node, script, "build", "--target", "x86_64"] env).command = "tauri" ∧
      (launch [node, script, "build", "--target", "x86_64"] env).args =
        ["build", "--target", "x86_64"] ∧
      (launch [node, script, "build", "--target", "x86_64"] env).shell = true ∧
      (launch [node, script, "build", "--target", "x86_64"] env).stdio = "inherit" ∧
      getProperty (launch [node, script, "build", "--target", "x86_64"] env).env
        "APPIMAGE_EXTRACT_AND_RUN" = some "1" ∧
      shellCommandLine (launch [node, script, "build", "--target", "x86_64"] env) =
        "tauri build --target x86_64" ∧
      execArgv (launch [node, script, "build", "--target", "x86_64"] env) =
        some ["tauri", "build", "--target", "x86_64"] := by
  have ha := launch_args node script ["build", "--target", "x86_64"] env
  have hl : shellCommandLine (launch [node, script, "build", "--target", "x86_64"] env) =
      "tauri build --target x86_64" := by
    unfold shellCommandLine
    rw [ha]
    rfl
  refine ⟨rfl, ha, rfl, rfl, ?_, hl, ?_⟩
  · show getProperty (childEnv env) "APPIMAGE_EXTRACT_AND_RUN" = some "1"
    rw [getProperty_childEnv_self, h]
    rfl
  · have hs : (launch [node, script, "build", "--target", "x86_64"] env).shell = true := rfl
    unfold execArgv
    rw [if_pos hs, hl]
    decide

theorem launch_build_example_witness :
    getProperty [("PATH", "/usr/bin")] "APPIMAGE_EXTRACT_AND_RUN" = none ∧
      launch ["/usr/bin/node", "scripts/tauri.js", "build", "--target", "x86_64"]
          [("PATH", "/usr/bin")] =
        SpawnRequest.mk "tauri" ["build", "--target", "x86_64"] "inherit" true
          [("PATH", "/usr/bin"), ("APPIMAGE_EXTRACT_AND_RUN", "1")] ∧
      shellCommandLine (launch
          ["/usr/bin/node", "scripts/tauri.js", "build", "--target", "x86_64"]
          [("PATH", "/usr/bin")]) = "tauri build --target x86_64" :=
  ⟨by decide, by decide,
    (launch_build_example "/usr/bin/node" "scripts/tauri.js" [("PATH", "/usr/bin")]
      (by decide)).2.2.2.2.2.1⟩

/-! ## Launch failures -/

theorem splitBlanks_literal (w : List Char) (hw : ∀ c ∈ w, isLiteral c = true) :
    ∀ (rest cur : List Char), splitBlanks (w ++ rest) cur = splitBlanks rest (cur ++ w) := by
  induction w with
  | nil => intro rest cur; simp
  | cons c w ih =>
    intro rest cur
    have hc : isLiteral c = true := hw c (List.mem_cons_self c w)
    have hw' : ∀ d ∈ w, isLiteral d = true := fun d hd => hw d (List.mem_cons_of_mem c hd)
    rw [List.cons_append, splitBlanks]
    simp only [isBlank_of_isLiteral c hc, Bool.false_eq_true, if_false]
    rw [ih hw', List.append_assoc]
    rfl

theorem splitBlanks_pieces (cs : List Char)
    (hcs : ∀ c ∈ cs, isLiteral c = true ∨ isBlank c = true) :
    ∀ cur : List Char, (∀ c ∈ cur, isLiteral c = true) →
      ∀ w ∈ splitBlanks cs cur, (!w.isEmpty && w.all isLiteral) = true := by
  induction cs with
  | nil =>
    intro cur hcur w hw
    rw [splitBlanks] at hw
    cases cur with
    | nil => simp at hw
    | cons d ds =>
      simp only [List.isEmpty_cons, Bool.false_eq_true, if_false, List.mem_singleton] at hw
      rw [hw]
      simp only [List.isEmpty_cons, Bool.not_false, Bool.true_and, List.all_eq_true]
      exact hcur
  | cons c rest ih =>
    intro cur hcur w hw
    have hrest : ∀ d ∈ rest, isLiteral d = true ∨ isBlank d = true :=
      fun d hd => hcs d (List.mem_cons_of_mem c hd)
    rw [splitBlanks] at hw
    by_cases hb : isBlank c = true
    · simp only [hb, if_true] at hw
      cases cur with
      | nil =>
        simp only [List.isEmpty_nil, if_true] at hw
        exact ih hrest [] (by simp) w hw
      | cons d ds =>
        simp only [List.isEmpty_cons, Bool.false_eq_true, if_false, List.mem_cons] at hw
        rcases hw with hw | hw
        · rw [hw]
          simp only [List.isEmpty_cons, Bool.not_false, Bool.true_and, List.all_eq_true]
          exact hcur
        · exact ih hrest [] (by simp) w hw
    · simp only [hb, if_false] at hw
      have hc : isLiteral c = true := by
        rcases hcs c (List.mem_cons_self c rest) with h | h
        · exact h
        · exact absurd h hb
      refine ih hrest (cur ++ [c]) ?_ w hw
      intro d hd
      rcases List.mem_append.mp hd with h | h
      · exact hcur d h
      · rw [List.mem_singleton.mp h]
        exact hc

theorem shToken_piece (raw : List Char)
    (h : (!raw.isEmpty && raw.all isLiteral) = true) :
    shToken raw = some (ShToken.word (String.mk raw)) := by
  have h1 : raw ≠ ['|', '|'] := by
    intro e
    rw [e] at h
    revert h
    decide
  have h2 : raw ≠ ['&', '&'] := by
    intro e
    rw [e] at h
    revert h
    decide
  have h3 : raw ≠ [';'] := by
    intro e
    rw [e] at h
    revert h
    decide
  unfold shToken
  rw [if_neg h1, if_neg h2, if_neg h3, if_pos h]

theorem shRun_pieces (sys : String → Lookup) (raws : List (List Char))
    (hw : ∀ w ∈ raws, (!w.isEmpty && w.all isLiteral) = true) (last : Int) (run : Bool) :
    ∀ cur : List String,
      shRun sys raws last run cur = shStep sys last run (cur ++ raws.map String.mk) := by
  induction raws with
  | nil => intro cur; simp [shRun]
  | cons a raws ih =>
    intro cur
    have ha := hw a (List.mem_cons_self a raws)
    have hw' : ∀ b ∈ raws, (!b.isEmpty && b.all isLiteral) = true :=
      fun b hb => hw b (List.mem_cons_of_mem a hb)
    rw [shRun, shToken_piece a ha]
    simp only []
    rw [ih hw', List.append_assoc]
    rfl

theorem splitBlanks_commandLine (r : SpawnRequest) (hc : isLiteralWord r.command = true)
    (ha : ∀ a ∈ r.args, ∀ c ∈ a.data, isLiteral c = true ∨ isBlank c = true) :
    ∃ tl : List (List Char),
      splitBlanks (shellCommandLine r).data [] = r.command.data :: tl ∧
        ∀ w ∈ tl, (!w.isEmpty && w.all isLiteral) = true := by
  simp only [isLiteralWord, Bool.and_eq_true, Bool.not_eq_true', List.isEmpty_eq_false,
    List.all_eq_true] at hc
  have hne : r.command.data.isEmpty = false := by
    cases hd : r.command.data with
    | nil => exact absurd hd hc.1
    | cons c cs => rfl
  rw [shellCommandLine_data, splitBlanks_literal r.command.data hc.2, List.nil_append]
  cases hargs : r.args with
  | nil =>
    refine ⟨[], ?_, by simp⟩
    simp [splitBlanks, hne]
  | cons a l =>
    refine ⟨splitBlanks (a.data ++ (l.map (fun x => ' ' :: x.data)).flatten) [], ?_, ?_⟩
    · rw [List.map_cons, List.flatten_cons, List.cons_append, splitBlanks]
      simp only [show isBlank ' ' = true by decide, if_true, hne, Bool.false_eq_true,
        if_false]
    · apply splitBlanks_pieces _ _ [] (by simp)
      intro c hmem
      rcases List.mem_append.mp hmem with h | h
      · exact ha a (by rw [hargs]; exact List.mem_cons_self a l) c h
      · obtain ⟨piece, hp, hcp⟩ := List.mem_flatten.mp h
        obtain ⟨b, hb, hbe⟩ := List.mem_map.mp hp
        rw [← hbe] at hcp
        rcases List.mem_cons.mp hcp with h' | h'
        · right
          rw [h']
          decide
        · exact ha b (by rw [hargs]; exact List.mem_cons_of_mem a hb) c h'

theorem shStatus_commandLine (sys : String → Lookup) (r : SpawnRequest)
    (hc : isLiteralWord r.command = true)
    (ha : ∀ a ∈ r.args, ∀ c ∈ a.data, isLiteral c = true ∨ isBlank c = true) :
    ∃ rest : List String,
      shStatus sys (shellCommandLine r) = runSimple sys (r.command :: rest) := by
  obtain ⟨tl, hsplit, htl⟩ := splitBlanks_commandLine r hc ha
  refine ⟨tl.map String.mk, ?_⟩
  unfold shStatus
  rw [hsplit]
  have hall : ∀ w ∈ r.command.data :: tl, (!w.isEmpty && w.all isLiteral) = true := by
    intro w hmem
    rcases List.mem_cons.mp hmem with e | hmem
    · rw [e]; exact hc
    · exact htl w hmem
  rw [shRun_pieces sys _ hall]
  rfl

/-- C9, as stated, fails: on a machine where `tauri` cannot be located and
`true` is the usual command of status 0, the forwarded arguments `||` `true`
make the command line `tauri || true`, and the parent ends with status 0. -/
theorem launch_failure_status_zero :
    Lookup.isFailure
        ((Platform.mk true
          (fun name => if name = "true" then Lookup.runs (fun _ => 0)
            else Lookup.fails 127)).sys "tauri") = true ∧
      shellCommandLine (launch ["node", "tauri.js", "||", "true"] []) = "tauri || true" ∧
      launcherStatus
        (Platform.mk true
          (fun name => if name = "true" then Lookup.runs (fun _ => 0)
            else Lookup.fails 127))
        ["node", "tauri.js", "||", "true"] [] = some 0 := by
  decide

/-- C9, amended: when `tauri` cannot be located or started and the forwarded
arguments are made only of blanks and of characters the shell takes literally
(an argument may be empty or contain spaces), the script, which registers no
`"error"` listener, neither catches nor translates the failure: the parent
ends with the status the shell reports for the failure (127 or 126), or with
status 1 when the shell itself cannot be started, and never with status 0. -/
theorem launch_failure_nonzero (p : Platform) (node script : String) (A : List String)
    (env : Obj) (s : Int) (hfail : p.sys "tauri" = Lookup.fails s)
    (hs : s = 127 ∨ s = 126)
    (hA : ∀ a ∈ A, ∀ c ∈ a.data, isLiteral c = true ∨ isBlank c = true) :
    "error" ∉ listenedEvents ∧
      launcherStatus p (node :: script :: A) env = some (if p.shellStarts then s else 1) ∧
      launcherStatus p (node :: script :: A) env ≠ some 0 := by
  have hc : isLiteralWord (launch (node :: script :: A) env).command = true := by
    show isLiteralWord "tauri" = true
    decide
  obtain ⟨rest, hst⟩ := shStatus_commandLine p.sys (launch (node :: script :: A) env) hc
    (by rw [launch_args]; exact hA)
  have hrun : runSimple p.sys ((launch (node :: script :: A) env).command :: rest) =
      some s := by
    show runSimple p.sys ("tauri" :: rest) = some s
    simp only [runSimple, hfail]
  have hval : launcherStatus p (node :: script :: A) env =
      some (if p.shellStarts then s else 1) := by
    have hsh : (launch (node :: script :: A) env).shell = true := rfl
    unfold launcherStatus childEvent
    rw [if_pos hsh, hst, hrun]
    cases p.shellStarts <;> rfl
  refine ⟨by decide, hval, ?_⟩
  rw [hval]
  cases p.shellStarts with
  | false =>
    simp only [Bool.false_eq_true, if_false, ne_eq, Option.some.injEq]
    decide
  | true =>
    simp only [if_true, ne_eq, Option.some.injEq]
    rcases hs with h | h <;> rw [h] <;> decide

theorem launch_failure_nonzero_witness :
    (Platform.mk true (fun _ => Lookup.fails 127)).sys "tauri" = Lookup.fails 127 ∧
      (∀ a ∈ ["build", "my app", ""], ∀ c ∈ a.data,
        isLiteral c = true ∨ isBlank c = true) ∧
      launcherStatus (Platform.mk true (fun _ => Lookup.fails 127))
        ("/usr/bin/node" :: "scripts/tauri.js" :: ["build", "my app", ""])
        [("PATH", "/usr/bin")] = some 127 :=
  ⟨rfl, by decide,
    (launch_failure_nonzero (Platform.mk true (fun _ => Lookup.fails 127))
      "/usr/bin/node" "scripts/tauri.js" ["build", "my app", ""]
      [("PATH", "/usr/bin")] 127 rfl (Or.inl rfl) (by decide)).2.1⟩

end TauriLauncher
